import Mathlib

/-!
# Verification of the service-call recording analysis pipeline

A shallow embedding of the orchestration core of the repository
(`analysis/utterance_labeling_phase1.py`, `analysis/stage_analysis_phase2.py`,
`analysis/annotate_utterances_phase3.py`, `analysis2/analyze.py`), together
with proofs about the windowed labeling merge, stage aggregation, weighted
scoring, rating bands, grade aggregation and annotation merging.

Modelling conventions:
* Python floats are modelled as `ℚ` (the pipeline only adds, divides and
  compares scores and timestamps; no float-specific behaviour is relied on).
* Python `round(x, 1)` is modelled as rounding `10*x` half-to-even (`round1`).
* JSON records are modelled as structures; a key that may be missing is an
  `Option` field, and `dict.get(k, d)` becomes `Option.getD`.
* Free-text prompt constants (question wording, criteria text, keyword lists)
  do not influence any control flow verified here and are omitted from the
  embedded configuration tables; ids, weights, stage keys and stage names are
  kept verbatim.
* Calls to the external OpenAI capability are modelled as oracle parameters;
  the embedding of a pipeline function additionally reports how many external
  calls it performed where a claim depends on that.
-/

/-! ## Rounding (Python `round(x, 1)`) -/

/-- Python's `round` to an integer: nearest integer, ties to even. -/
def roundHalfEven (q : ℚ) : ℤ :=
  let f := ⌊q⌋
  let r := q - (f : ℚ)
  if r < 1/2 then f
  else if 1/2 < r then f + 1
  else if f % 2 = 0 then f else f + 1

/-- Python's `round(x, 1)`: round to one decimal place, ties to even. -/
def round1 (q : ℚ) : ℚ := (roundHalfEven (10 * q) : ℚ) / 10

theorem roundHalfEven_intCast (z : ℤ) : roundHalfEven (z : ℚ) = z := by
  unfold roundHalfEven
  simp only [Int.floor_intCast, sub_self]
  norm_num

theorem round1_zero : round1 0 = 0 := by
  unfold round1
  have : ((10 : ℚ) * 0) = ((0 : ℤ) : ℚ) := by norm_num
  rw [this, roundHalfEven_intCast]
  norm_num

/-! ## Data model

`Annot` models the annotation records of phase 3 (`annotate_utterances_phase3.py`);
`utterance_index` is an `Int` because it comes straight from parsed JSON and the
source applies Python list indexing to it without a sign check. -/

structure Annot where
  utterance_index : Int
  type : String
  title : String
  description : String
  severity : String
  recommendation : Option String
deriving Repr, DecidableEq

/-- An utterance of the transcript.  `speaker`/`text`/`start`/`end`/`confidence`
come from transcription; the optional fields are added later by phase 1
(`merge_labels_with_transcript`) and phase 3 (`apply_annotations_to_transcript`). -/
structure Utt where
  speaker : String
  text : String
  start : ℚ
  «end» : ℚ
  confidence : ℚ
  primary_stage : Option String
  stage_tags : Option (List String)
  stage_confidence : Option ℚ
  stage_reasoning : Option String
  annotations : Option (List Annot)
deriving Repr, DecidableEq

/-- One entry of the `labels` array returned by the classification capability
in phase 1.  `index` is whatever integer the model wrote in the JSON. -/
structure Label where
  index : Int
  primary_stage : String
  stage_tags : List String
  confidence : ℚ
  reasoning : String
deriving Repr, DecidableEq

/-- The `labeling_metadata` record written by `merge_labels_with_transcript`.
The source builds `stages_found` as `list(set(...))`, whose iteration order is
unspecified; it is modelled as first-occurrence deduplication. -/
structure Metadata where
  phase : String
  model : String
  total_utterances : ℕ
  stages_found : List String
  overall_notes : String
deriving Repr, DecidableEq

/-- The transcript record threaded through the pipeline. -/
structure Transcript where
  utterances : List Utt
  speaker_identification : Option (List (String × String))
  labeling_metadata : Option Metadata
deriving Repr, DecidableEq

/-! ## Phase 1: windowed labeling (`utterance_labeling_phase1.py`) -/

/-- The keys of `STAGE_DEFINITIONS`, in source order. -/
def STAGE_KEYS : List String :=
  ["introduction", "problem_diagnosis", "solution_explanation",
   "upsell_attempts", "maintenance_plan", "closing"]

/-- `STAGE_DEFINITIONS[key]["name"]` for each taxonomy key. -/
def stageNameOf (key : String) : String :=
  if key = "introduction" then "Introduction & Greeting"
  else if key = "problem_diagnosis" then "Problem Diagnosis"
  else if key = "solution_explanation" then "Solution Explanation"
  else if key = "upsell_attempts" then "Upsell Attempts"
  else if key = "maintenance_plan" then "Maintenance Plan Offer"
  else if key = "closing" then "Closing & Thank You"
  else ""

/-- One utterance of a context window (`create_context_window` output entry). -/
structure CtxUtt where
  index : ℕ
  speaker : String
  text : String
  start : ℚ
  «end» : ℚ
  is_target : Bool
deriving Repr, DecidableEq

/-- `create_context_window(utterances, target_index, window_size)`:
the slice `utterances[max(0, i-w) : min(N, i+w+1)]` with the target flagged.
Natural subtraction models Python's `max(0, i - w)`; every generated index is
in range, so the `utts[i]?` lookup never actually drops an element. -/
def create_context_window (utts : List Utt) (target_index : ℕ)
    (window_size : ℕ) : List CtxUtt :=
  let s := target_index - window_size
  let e := min utts.length (target_index + window_size + 1)
  (List.range' s (e - s)).filterMap fun i =>
    (utts[i]?).map fun u =>
      ⟨i, u.speaker, u.text, u.start, u.«end», decide (i = target_index)⟩

/-- One batch entry sent to the classification capability: a target index with
its context window. -/
structure CtxBatch where
  target_index : ℕ
  context : List CtxUtt
deriving Repr, DecidableEq

/-- Structural worker for `chunkList`; the fuel argument only bounds the
number of loop iterations (one chunk consumes at least one element). -/
def chunkListAux (bs : ℕ) : ℕ → List α → List (List α)
  | _, [] => []
  | 0, _ :: _ => []
  | fuel + 1, a :: l =>
      if bs = 0 then []
      else (a :: l).take bs :: chunkListAux bs fuel ((a :: l).drop bs)

/-- `range(0, n, bs)` chunking of a list, as done by the batch loop
`for batch_num in range(0, len(utterances), batch_size)`. -/
def chunkList (bs : ℕ) (l : List α) : List (List α) :=
  chunkListAux bs l.length l

/-- The batches of context windows built by `label_utterances_with_gpt` for a
transcript of `utts` with batch size `bs`: the target indices `0..N-1` are cut
into chunks of `bs`, and each target gets its window (window_size 4). -/
def labelBatches (utts : List Utt) (bs : ℕ) : List (List CtxBatch) :=
  (chunkList bs (List.range utts.length)).map fun idxs =>
    idxs.map fun i => ⟨i, create_context_window utts i 4⟩

/-- The `labels_result` dictionary returned by `label_utterances_with_gpt`. -/
structure LabelsResult where
  labels : List Label
  speaker_identification : List (String × String)
  overall_notes : String
deriving Repr, DecidableEq

/-- `label_utterances_with_gpt(utterances, batch_size)`.
`oracle` stands for one chat-completion call on a batch (prompt construction
and JSON parsing folded in); `speakerId` stands for the one-shot
`identify_speakers` call.  Besides the `labels_result` dict the embedding
returns the list of batches for which the cardinality warning
`Expected ... labels, got ...` was printed (the source only prints; the
returned list models the log). -/
def label_utterances_with_gpt (oracle : List CtxBatch → List Label)
    (speakerId : List (String × String)) (utts : List Utt) (bs : ℕ) :
    LabelsResult × List (List CtxBatch) :=
  let batches := labelBatches utts bs
  let all_labels := (batches.map oracle).flatten
  let warnings := batches.filter fun b => (oracle b).length ≠ b.length
  (⟨all_labels, speakerId,
    "Labeled with sliding window context (window_size=4). Processed in " ++
      toString batches.length ++ " batches."⟩,
   warnings)

/-- The body of the merge loop of `merge_labels_with_transcript` for the
utterance at position `i`: `if i < len(labels)` the label fields are written
onto the utterance (and `annotations` initialised to `[]`), otherwise the
utterance is left untouched. -/
def applyLabelAt (labels : List Label) (i : ℕ) (u : Utt) : Utt :=
  match labels[i]? with
  | some lab =>
      { u with primary_stage := some lab.primary_stage,
               stage_tags := some lab.stage_tags,
               stage_confidence := some lab.confidence,
               stage_reasoning := some lab.reasoning,
               annotations := some [] }
  | none => u

/-- The `for i, utterance in enumerate(...)` loop of
`merge_labels_with_transcript`, with `n` the index of the first element. -/
def mergeUtterancesFrom (labels : List Label) : ℕ → List Utt → List Utt
  | _, [] => []
  | n, u :: us => applyLabelAt labels n u :: mergeUtterancesFrom labels (n + 1) us

/-- `merge_labels_with_transcript(transcript_data, labels_result)`.
The returned `Bool` models whether the label-count warning was printed
(`len(labels) != len(utterances)`). -/
def merge_labels_with_transcript (t : Transcript) (res : LabelsResult) :
    Transcript × Bool :=
  let labels := res.labels
  let warned := labels.length ≠ t.utterances.length
  ({ utterances := mergeUtterancesFrom labels 0 t.utterances,
     speaker_identification := some res.speaker_identification,
     labeling_metadata := some
       ⟨"phase1_utterance_labeling", "gpt-4o", labels.length,
        (labels.map (·.primary_stage)).dedup, res.overall_notes⟩ },
   decide warned)

/-! ## Phase 1: stage aggregation (`generate_stage_summary`) -/

/-- One value of the `stage_summary` dict. -/
structure StageSummaryRec where
  name : String
  utterance_indices : List ℕ
  utterance_count : ℕ
  start_time : Option ℚ
  end_time : Option ℚ
  status : String
deriving Repr, DecidableEq

/-- The `stage_summary` dict, as a partial map from stage key to record. -/
def StageMap := String → Option StageSummaryRec

/-- The initial `stage_summary`: one fresh record per taxonomy key. -/
def initStageMap : StageMap := fun k =>
  if k ∈ STAGE_KEYS then
    some ⟨stageNameOf k, [], 0, none, none, "absent"⟩
  else none

/-- The record update performed when utterance `i` (with data `u`) is first
inserted into a stage's summary: index appended, count incremented, status set
to present, `start_time` set only if still null, `end_time` overwritten. -/
def insertUtt (s : StageSummaryRec) (i : ℕ) (u : Utt) : StageSummaryRec :=
  { s with utterance_indices := s.utterance_indices ++ [i],
           utterance_count := s.utterance_count + 1,
           status := "present",
           start_time := some (s.start_time.getD u.start),
           end_time := some u.«end» }

/-- The body of the inner `for stage_tag in stage_tags` loop of
`generate_stage_summary`: skip unknown tags (`if stage_tag in stage_summary`)
and already-inserted indices (`if i not in ...`). -/
def tagStep (i : ℕ) (u : Utt) (m : StageMap) (tag : String) : StageMap :=
  match m tag with
  | none => m
  | some s =>
      if i ∈ s.utterance_indices then m
      else fun k => if k = tag then some (insertUtt s i u) else m k

/-- Processing one utterance of the outer loop: fold the inner loop over the
utterance's `stage_tags` (missing key defaults to `[]`). -/
def uttStep (m : StageMap) (i : ℕ) (u : Utt) : StageMap :=
  (u.stage_tags.getD []).foldl (tagStep i u) m

/-- The `for i, utterance in enumerate(...)` loop of `generate_stage_summary`,
with `n` the index of the first remaining utterance. -/
def summarizeFrom : ℕ → StageMap → List Utt → StageMap
  | _, m, [] => m
  | n, m, u :: us => summarizeFrom (n + 1) (uttStep m n u) us

/-- `generate_stage_summary(labeled_transcript)`: builds the `stage_summary`
dict from the utterances' `stage_tags`. -/
def generate_stage_summary (t : Transcript) : StageMap :=
  summarizeFrom 0 initStageMap t.utterances

/-- `List.enumFrom`-style enumeration used to state facts about the loops. -/
def enumFrom (n : ℕ) : List α → List (ℕ × α)
  | [] => []
  | a :: l => (n, a) :: enumFrom (n + 1) l

/-- The members of a stage: the (index, utterance) pairs whose `stage_tags`
contain the key, in index order. -/
def stageMembers (key : String) (n : ℕ) (utts : List Utt) : List (ℕ × Utt) :=
  (enumFrom n utts).filter fun p => key ∈ p.2.stage_tags.getD []

/-! ## Phase 2: compliance scoring (`stage_analysis_phase2.py`) -/

/-- One rubric question of `COMPLIANCE_CRITERIA` (id and weight; the free-text
`question`/`criteria` fields feed only the prompt and are omitted). -/
structure QuestionRec where
  id : String
  weight : ℕ
deriving Repr, DecidableEq

/-- The `COMPLIANCE_CRITERIA` table: stage key, `stage_name`, questions. -/
def COMPLIANCE_CRITERIA : List (String × String × List QuestionRec) :=
  [("introduction", "Introduction & Greeting",
     [⟨"intro_greeting", 2⟩, ⟨"intro_name_company", 2⟩, ⟨"intro_rapport", 1⟩]),
   ("problem_diagnosis", "Problem Diagnosis",
     [⟨"diag_relevance", 1⟩, ⟨"diag_customer_needs", 2⟩, ⟨"diag_communication", 2⟩]),
   ("solution_explanation", "Solution Explanation",
     [⟨"soln_clarity", 2⟩, ⟨"soln_understanding", 1⟩, ⟨"soln_details", 1⟩]),
   ("upsell_attempts", "Upsell Attempts",
     [⟨"upsell_present", 2⟩, ⟨"upsell_approach", 2⟩, ⟨"upsell_value", 1⟩]),
   ("maintenance_plan", "Maintenance Plan Offer",
     [⟨"maint_offered", 3⟩, ⟨"maint_details", 1⟩, ⟨"maint_customer_response", 1⟩]),
   ("closing", "Closing & Thank You",
     [⟨"close_thankyou", 2⟩, ⟨"close_professional", 1⟩, ⟨"close_nextsteps", 1⟩])]

/-- `COMPLIANCE_CRITERIA[stage_key]`; `none` models Python's `KeyError`. -/
def criteriaLookup (stage_key : String) : Option (String × List QuestionRec) :=
  (COMPLIANCE_CRITERIA.find? fun p => p.1 = stage_key).map Prod.snd

/-- One entry of the `questions` array of a stage analysis. -/
structure QuestionResult where
  id : String
  answer : String
  score : ℚ
deriving Repr, DecidableEq

/-- A stage analysis record, as produced by `analyze_stage_with_gpt`
(either the hard-coded absent record or the parsed model output). -/
structure StageAnalysisFull where
  status : String
  overall_compliance : String
  compliance_score : ℚ
  quality_rating : String
  analysis : String
  questions : List QuestionResult
  key_strengths : List String
  critical_gaps : List String
  recommendations : List String
deriving Repr, DecidableEq

/-- The hard-coded record returned by `analyze_stage_with_gpt` when the stage
has no utterances. -/
def mkAbsentAnalysis (stage_name : String) : StageAnalysisFull :=
  { status := "absent",
    overall_compliance := "NON-COMPLIANT",
    compliance_score := 0,
    quality_rating := "N/A",
    analysis := "The " ++ stage_name ++ " stage was not identified in this call.",
    questions := [],
    key_strengths := [],
    critical_gaps := [stage_name ++ " stage missing entirely"],
    recommendations := ["Include a proper " ++ stage_name ++ " in future calls"] }

/-- `analyze_stage_with_gpt(stage_key, utterances, speaker_map)`.
`oracle` stands for the chat-completion call plus JSON parsing of the present
branch.  The result is paired with the number of external calls made; `none`
models the `KeyError` on an unknown stage key. -/
def analyze_stage_with_gpt
    (oracle : String → List Utt → List (String × String) → StageAnalysisFull)
    (stage_key : String) (utterances : List Utt)
    (speaker_map : List (String × String)) : Option (StageAnalysisFull × ℕ) :=
  match criteriaLookup stage_key with
  | none => none
  | some (stage_name, _qs) =>
      if utterances.isEmpty then some (mkAbsentAnalysis stage_name, 0)
      else some (oracle stage_key utterances speaker_map, 1)

/-- `calculate_overall_compliance_score(stage_analyses)`: accumulate
`total_score`, `total_weight`, `stages_evaluated` over the present stages,
divide by the number of stages evaluated (0 if none), round to one decimal. -/
def calculate_overall_compliance_score
    (stage_analyses : List (String × StageAnalysisFull)) : ℚ :=
  let acc := stage_analyses.foldl
    (fun (acc : ℚ × ℕ × ℕ) p =>
      if p.2.status = "present" then
        (acc.1 + p.2.compliance_score, acc.2.1 + 100, acc.2.2 + 1)
      else acc)
    (0, 0, 0)
  let overall_score : ℚ := if 0 < acc.2.1 then acc.1 / (acc.2.2 : ℚ) else 0
  round1 overall_score

/-- `generate_overall_rating(overall_score)`. -/
def generate_overall_rating (overall_score : ℚ) : String :=
  if 90 ≤ overall_score then "Excellent"
  else if 70 ≤ overall_score then "Good"
  else if 50 ≤ overall_score then "Fair"
  else "Poor"

/-- Modelled from the spec: the stage-level `quality_rating`.  The repository
delegates this judgement to the external evaluation capability (the prompt of
`analyze_stage_with_gpt` spells out the band table Excellent 90-100 /
Good 70-89 / Fair 50-69 / Poor below 50); no code under `src` computes it, so
the band table is taken from the spec sentence
`score >= 90 -> Excellent; >= 70 -> Good; >= 50 -> Fair; else Poor`. -/
def stage_quality_rating_spec (score : ℚ) : String :=
  if 90 ≤ score then "Excellent"
  else if 70 ≤ score then "Good"
  else if 50 ≤ score then "Fair"
  else "Poor"

/-- Modelled from the spec: the Compliance Scorer's weighted stage
aggregation.  The repository delegates this computation to the external
evaluation capability (the prompt of `analyze_stage_with_gpt` requests a
`weighted average based on question weights`); no code under `src` computes
it, so it is modelled from the spec formula
`compliance_score = sum(score * weight) / sum(weight)`, rounded to one
decimal.  Questions are (score, weight) pairs. -/
def compliance_score_spec (qs : List (ℚ × ℕ)) : ℚ :=
  let acc := qs.foldl (fun (a : ℚ × ℕ) q => (a.1 + q.1 * (q.2 : ℚ), a.2 + q.2)) (0, 0)
  round1 (acc.1 / (acc.2 : ℚ))

/-! ## analysis2: executive-summary grade aggregation (`analysis2/analyze.py`) -/

/-- The `grade_values` letter-to-number table of `generate_executive_summary`. -/
def grade_values (g : String) : Option ℕ :=
  if g = "A" then some 90
  else if g = "B" then some 80
  else if g = "C" then some 70
  else if g = "D" then some 60
  else if g = "F" then some 50
  else none

/-- The number-to-letter mapping applied to the average grade in
`generate_executive_summary`. -/
def gradeFromAverage (avg : ℚ) : String :=
  if 90 ≤ avg then "A"
  else if 80 ≤ avg then "B"
  else if 70 ≤ avg then "C"
  else if 60 ≤ avg then "D"
  else "F"

/-- The four sales-evaluation dimensions read by `generate_executive_summary`
(`building_rapport`, `handling_objections`, `speaking_time_analysis`,
`upselling_performance`); each field is the dimension's `grade` string when
the sub-dictionary is present. -/
structure SalesEval where
  building_rapport : Option String
  handling_objections : Option String
  speaking_time_analysis : Option String
  upselling_performance : Option String
deriving Repr, DecidableEq

/-- The sales grades scanned by the aggregation loop, in source key order. -/
def salesGradeList (sales_eval : Option SalesEval) : List String :=
  match sales_eval with
  | none => []
  | some se =>
      [se.building_rapport, se.handling_objections,
       se.speaking_time_analysis, se.upselling_performance].filterMap id

/-- The grade-averaging core of `generate_executive_summary`: fold the
compliance grades and then the sales grades through the `grade_values` table,
average, and map the average back to a letter (`overall_grade`). -/
def executive_overall_grade (complianceGrades : List String)
    (sales_eval : Option SalesEval) : String :=
  let gs := complianceGrades ++ salesGradeList sales_eval
  let acc := gs.foldl
    (fun (a : ℕ × ℕ) g =>
      match grade_values g with
      | some v => (a.1 + v, a.2 + 1)
      | none => a)
    (0, 0)
  let avg : ℚ := if 0 < acc.2 then (acc.1 : ℚ) / (acc.2 : ℚ) else 0
  gradeFromAverage avg

/-! ## Phase 3: annotation merging (`annotate_utterances_phase3.py`) -/

/-- One step of building the `annotation_map` of
`apply_annotations_to_transcript`: append to the group of an existing key, or
open a new group at the end (Python dicts preserve insertion order). -/
def insertAnnot (m : List (Int × List Annot)) (a : Annot) :
    List (Int × List Annot) :=
  if m.any fun p => p.1 = a.utterance_index then
    m.map fun p => if p.1 = a.utterance_index then (p.1, p.2 ++ [a]) else p
  else m ++ [(a.utterance_index, [a])]

/-- The `annotation_map` dict: annotations grouped by `utterance_index`,
keys in first-occurrence order, each group in application order. -/
def annotationMap (all_annotations : List Annot) : List (Int × List Annot) :=
  all_annotations.foldl insertAnnot []

/-- In-place update of the element at position `n` (no-op when out of range),
modelling mutation of `transcript_data["utterances"][idx]`. -/
def modifyAt (f : α → α) : List α → ℕ → List α
  | [], _ => []
  | x :: xs, 0 => f x :: xs
  | x :: xs, n + 1 => x :: modifyAt f xs n

/-- Initialise `utterance["annotations"]` if missing, then `.extend(anns)`. -/
def addAnnots (anns : List Annot) (u : Utt) : Utt :=
  { u with annotations := some (u.annotations.getD [] ++ anns) }

/-- `apply_annotations_to_transcript(transcript_data, all_annotations)`.
The source guards each group with `idx < len(utterances)` only; Python list
indexing then resolves a negative `idx` from the end of the list and raises
`IndexError` when `idx < -len`; `Except.error` models that exception. -/
def apply_annotations_to_transcript (t : Transcript)
    (all_annotations : List Annot) : Except String Transcript :=
  let N : Int := t.utterances.length
  ((annotationMap all_annotations).foldlM
    (fun (us : List Utt) (p : Int × List Annot) =>
      if p.1 < N then
        if 0 ≤ p.1 then Except.ok (modifyAt (addAnnots p.2) us p.1.toNat)
        else if 0 ≤ p.1 + N then
          Except.ok (modifyAt (addAnnots p.2) us (p.1 + N).toNat)
        else Except.error "IndexError: list index out of range"
      else Except.ok us)
    t.utterances).map fun us => { t with utterances := us }

/-- The non-annotation fields of an utterance (used to state that the
annotation merger changes nothing else). -/
def uttCore (u : Utt) :=
  (u.speaker, u.text, u.start, u.«end», u.confidence, u.primary_stage,
   u.stage_tags, u.stage_confidence, u.stage_reasoning)

/-- The content of a label with its `index` field forgotten (used to state
that the merge never reads `index`). -/
def labelContent (lab : Label) :=
  (lab.primary_stage, lab.stage_tags, lab.confidence, lab.reasoning)

/-- A 15-utterance raw transcript used to exercise the labeling pipeline on
concrete input. -/
def demoUtterances : List Utt :=
  List.replicate 15 (Utt.mk "A" "t" 0 0 0 none none none none none)

/-- The transcript record wrapping `demoUtterances`. -/
def demoTranscript : Transcript := Transcript.mk demoUtterances none none

/-- A mock classification capability that returns only 13 labels regardless
of the batch it is given. -/
def demoOracle : List CtxBatch → List Label :=
  fun _ => List.replicate 13 (Label.mk 0 "introduction" ["introduction"] 1 "r")

/-! ## Theorems: scoring and rating -/

theorem overall_fold_spec (sa : List (String × StageAnalysisFull)) (t0 : ℚ) (w0 c0 : ℕ) :
    sa.foldl
      (fun (acc : ℚ × ℕ × ℕ) p =>
        if p.2.status = "present" then
          (acc.1 + p.2.compliance_score, acc.2.1 + 100, acc.2.2 + 1)
        else acc)
      (t0, w0, c0) =
    (t0 + (((sa.map Prod.snd).filter fun a => a.status = "present").map
             (·.compliance_score)).sum,
     w0 + 100 * ((sa.map Prod.snd).filter fun a => a.status = "present").length,
     c0 + ((sa.map Prod.snd).filter fun a => a.status = "present").length) := by
  induction sa generalizing t0 w0 c0 with
  | nil => simp
  | cons p rest ih =>
      simp only [List.foldl_cons, List.map_cons, List.filter_cons]
      by_cases h : p.2.status = "present"
      · rw [if_pos h, ih, decide_eq_true h]
        simp only [if_true, List.map_cons, List.sum_cons, List.length_cons,
          Prod.mk.injEq]
        refine ⟨by ring, by omega, by omega⟩
      · rw [if_neg h, ih, decide_eq_false h]
        simp

/-- C4: the call-level overall compliance score is the unweighted arithmetic
mean of `compliance_score` over exactly the stage analyses whose status is
`present` (absent stages are excluded from the denominator), rounded to one
decimal; it is 0 when no stage is present. -/
theorem claim_C4_overall_score_mean (sa : List (String × StageAnalysisFull)) :
    calculate_overall_compliance_score sa =
      (let present := (sa.map Prod.snd).filter fun a => a.status = "present"
       if present.isEmpty then 0
       else round1 ((present.map (·.compliance_score)).sum / (present.length : ℚ))) := by
  unfold calculate_overall_compliance_score
  rw [overall_fold_spec]
  simp only [zero_add, Nat.zero_add]
  by_cases h : ((sa.map Prod.snd).filter fun a => a.status = "present").isEmpty
  · rw [List.isEmpty_iff] at h
    simp [h, round1_zero]
  · rw [List.isEmpty_iff] at h
    have hlen : 0 < ((sa.map Prod.snd).filter fun a => a.status = "present").length :=
      List.length_pos.mpr h
    simp only [List.isEmpty_iff]
    rw [if_pos (by omega), if_neg h]

/-- C5: the numeric-to-categorical rating bands: at least 90 is Excellent, at
least 70 and below 90 is Good, at least 50 and below 70 is Fair, otherwise
Poor; the listed boundary scores map as the claim states; and the call-level
function agrees with the (spec-modelled) stage-level band table everywhere. -/
theorem claim_C5_rating_bands :
    (∀ s : ℚ, generate_overall_rating s = stage_quality_rating_spec s) ∧
    (∀ s : ℚ, 90 ≤ s → generate_overall_rating s = "Excellent") ∧
    (∀ s : ℚ, 70 ≤ s → s < 90 → generate_overall_rating s = "Good") ∧
    (∀ s : ℚ, 50 ≤ s → s < 70 → generate_overall_rating s = "Fair") ∧
    (∀ s : ℚ, s < 50 → generate_overall_rating s = "Poor") ∧
    generate_overall_rating 90 = "Excellent" ∧
    generate_overall_rating (899/10) = "Good" ∧
    generate_overall_rating 70 = "Good" ∧
    generate_overall_rating (699/10) = "Fair" ∧
    generate_overall_rating 50 = "Fair" ∧
    generate_overall_rating (499/10) = "Poor" := by
  refine ⟨fun s => rfl, ?_, ?_, ?_, ?_, ?_, ?_, ?_, ?_, ?_, ?_⟩
  · intro s h1
    unfold generate_overall_rating
    rw [if_pos h1]
  · intro s h1 h2
    unfold generate_overall_rating
    rw [if_neg (by linarith), if_pos h1]
  · intro s h1 h2
    unfold generate_overall_rating
    rw [if_neg (by linarith), if_neg (by linarith), if_pos h1]
  · intro s h1
    unfold generate_overall_rating
    rw [if_neg (by linarith), if_neg (by linarith), if_neg (by linarith)]
  · unfold generate_overall_rating
    norm_num
  · unfold generate_overall_rating
    norm_num
  · unfold generate_overall_rating
    norm_num
  · unfold generate_overall_rating
    norm_num
  · unfold generate_overall_rating
    norm_num
  · unfold generate_overall_rating
    norm_num

theorem claim_C5_rating_bands_witness :
    (70 ≤ (75 : ℚ)) ∧ ((75 : ℚ) < 90) ∧ generate_overall_rating 75 = "Good" :=
  ⟨by norm_num, by norm_num,
   claim_C5_rating_bands.2.2.1 75 (by norm_num) (by norm_num)⟩

/-- C8: a stage with zero tagged utterances deterministically yields the
hard-coded absent analysis — status `absent`, `compliance_score` 0,
`overall_compliance` `NON-COMPLIANT`, empty question list — and performs no
external evaluation call, for every oracle (hence regardless of the content
of anything else). -/
theorem claim_C8_absent_stage_deterministic
    (oracle : String → List Utt → List (String × String) → StageAnalysisFull)
    (speaker_map : List (String × String)) (stage_key : String)
    (h : (criteriaLookup stage_key).isSome) :
    ∃ a, analyze_stage_with_gpt oracle stage_key [] speaker_map = some (a, 0) ∧
      a.status = "absent" ∧ a.compliance_score = 0 ∧
      a.overall_compliance = "NON-COMPLIANT" ∧ a.questions = [] := by
  obtain ⟨⟨name, qs⟩, hc⟩ := Option.isSome_iff_exists.mp h
  refine ⟨mkAbsentAnalysis name, ?_, rfl, rfl, rfl, rfl⟩
  simp [analyze_stage_with_gpt, hc]

theorem claim_C8_absent_stage_deterministic_witness :
    ∃ a, analyze_stage_with_gpt (fun _ _ _ => mkAbsentAnalysis "")
        "introduction" [] [] = some (a, 0) ∧
      a.status = "absent" ∧ a.compliance_score = 0 ∧
      a.overall_compliance = "NON-COMPLIANT" ∧ a.questions = [] :=
  claim_C8_absent_stage_deterministic _ _ _ (by decide)

theorem compliance_fold_spec (qs : List (ℚ × ℕ)) (a0 : ℚ) (b0 : ℕ) :
    qs.foldl (fun (a : ℚ × ℕ) q => (a.1 + q.1 * (q.2 : ℚ), a.2 + q.2)) (a0, b0) =
      (a0 + (qs.map fun q => q.1 * (q.2 : ℚ)).sum, b0 + (qs.map Prod.snd).sum) := by
  induction qs generalizing a0 b0 with
  | nil => simp
  | cons q rest ih =>
      simp only [List.foldl_cons, List.map_cons, List.sum_cons, ih, Prod.mk.injEq]
      exact ⟨by ring, by omega⟩

/-- C1: the (spec-modelled) weighted stage aggregation equals the sum of
score-times-weight divided by the sum of weights, rounded to one decimal, and
on questions `[(80,2),(60,1),(100,1)]` it yields exactly `80.0`. -/
theorem claim_C1_weighted_stage_score :
    (∀ qs : List (ℚ × ℕ), 0 < (qs.map Prod.snd).sum →
      compliance_score_spec qs =
        round1 ((qs.map fun q => q.1 * (q.2 : ℚ)).sum / ((qs.map Prod.snd).sum : ℚ))) ∧
    compliance_score_spec [(80, 2), (60, 1), (100, 1)] = 80 := by
  constructor
  · intro qs _h
    unfold compliance_score_spec
    rw [compliance_fold_spec]
    norm_num
  · unfold compliance_score_spec
    rw [compliance_fold_spec]
    norm_num [round1, roundHalfEven]

theorem claim_C1_weighted_stage_score_witness :
    0 < ((([(80, 2), (60, 1), (100, 1)] : List (ℚ × ℕ))).map Prod.snd).sum ∧
    compliance_score_spec [(80, 2), (60, 1), (100, 1)] =
      round1 (((([(80, 2), (60, 1), (100, 1)] : List (ℚ × ℕ))).map
          fun q => q.1 * (q.2 : ℚ)).sum /
        (((([(80, 2), (60, 1), (100, 1)] : List (ℚ × ℕ))).map Prod.snd).sum : ℚ)) :=
  ⟨by decide, claim_C1_weighted_stage_score.1 _ (by decide)⟩

theorem grade_values_roundtrip (g : String) (v : ℕ) (hgv : grade_values g = some v) :
    gradeFromAverage (v : ℚ) = g := by
  unfold grade_values at hgv
  split_ifs at hgv with h1 h2 h3 h4 h5 <;> simp_all <;>
    (subst hgv; unfold gradeFromAverage; norm_num)

theorem grade_fold_const (g : String) (v : ℕ) (hg : grade_values g = some v)
    (l : List String) (a0 b0 : ℕ) (hall : ∀ x ∈ l, x = g) :
    l.foldl
      (fun (a : ℕ × ℕ) x =>
        match grade_values x with
        | some w => (a.1 + w, a.2 + 1)
        | none => a)
      (a0, b0) = (a0 + l.length * v, b0 + l.length) := by
  induction l generalizing a0 b0 with
  | nil => simp
  | cons x rest ih =>
      have hx : x = g := hall x (by simp)
      simp only [List.foldl_cons, hx, hg, List.length_cons]
      rw [ih _ _ fun y hy => hall y (by simp [hy])]
      refine congrArg₂ Prod.mk (by ring) (by omega)

/-- C6: the executive-summary grade aggregation uses the fixed table
A=90, B=80, C=70, D=60, F=50, maps an average back with the thresholds
90/80/70/60, the conversion round-trips on every grade in the table, and a
non-empty collection of identical grades (compliance plus sales dimensions)
averages back to that same grade. -/
theorem claim_C6_grade_roundtrip :
    (grade_values "A" = some 90 ∧ grade_values "B" = some 80 ∧
     grade_values "C" = some 70 ∧ grade_values "D" = some 60 ∧
     grade_values "F" = some 50) ∧
    (∀ g v, grade_values g = some v → gradeFromAverage (v : ℚ) = g) ∧
    (∀ g v comp se, grade_values g = some v →
      (∀ x ∈ comp ++ salesGradeList se, x = g) →
      comp ++ salesGradeList se ≠ [] →
      executive_overall_grade comp se = g) := by
  refine ⟨⟨rfl, rfl, rfl, rfl, rfl⟩, grade_values_roundtrip, ?_⟩
  intro g v comp se hgv hall hne
  have hlen : 0 < (comp ++ salesGradeList se).length := List.length_pos.mpr hne
  simp only [executive_overall_grade]
  rw [grade_fold_const g v hgv _ 0 0 hall]
  rw [if_pos (by omega : 0 < 0 + (comp ++ salesGradeList se).length)]
  have hne0 : (((comp ++ salesGradeList se).length : ℚ)) ≠ 0 :=
    Nat.cast_ne_zero.mpr (Nat.pos_iff_ne_zero.mp hlen)
  have hcast : ((0 + (comp ++ salesGradeList se).length * v : ℕ) : ℚ) /
      ((0 + (comp ++ salesGradeList se).length : ℕ) : ℚ) = (v : ℚ) := by
    push_cast
    rw [zero_add, zero_add]
    exact mul_div_cancel_left₀ _ hne0
  rw [hcast]
  exact grade_values_roundtrip g v hgv

theorem claim_C6_grade_roundtrip_witness :
    grade_values "A" = some 90 ∧
    (∀ x ∈ ["A", "A"] ++ salesGradeList none, x = "A") ∧
    (["A", "A"] ++ salesGradeList none ≠ []) ∧
    executive_overall_grade ["A", "A"] none = "A" :=
  ⟨by decide, by decide, by decide,
   claim_C6_grade_roundtrip.2.2 "A" 90 ["A", "A"] none (by decide) (by decide)
     (by decide)⟩

/-! ## Theorems: stage aggregation -/


theorem tagStep_other (i : ℕ) (u : Utt) (m : StageMap) (t key : String)
    (hne : t ≠ key) : tagStep i u m t key = m key := by
  unfold tagStep
  cases h : m t with
  | none => rfl
  | some s =>
      dsimp only
      by_cases hi : i ∈ s.utterance_indices
      · rw [if_pos hi]
      · rw [if_neg hi]
        exact if_neg fun hk => hne hk.symm

theorem tagStep_insert (i : ℕ) (u : Utt) (m : StageMap) (key : String)
    (s : StageSummaryRec) (hs : m key = some s) (hi : i ∉ s.utterance_indices) :
    tagStep i u m key key = some (insertUtt s i u) := by
  unfold tagStep
  rw [hs]
  dsimp only
  rw [if_neg hi]
  exact if_pos rfl

theorem tagStep_saturated (i : ℕ) (u : Utt) (m : StageMap) (t key : String)
    (h : m key = none ∨ ∃ s, m key = some s ∧ i ∈ s.utterance_indices) :
    tagStep i u m t key = m key := by
  by_cases hne : t = key
  · subst hne
    unfold tagStep
    rcases h with hm | ⟨s, hm, hi⟩
    · rw [hm]
      dsimp only
      exact hm
    · rw [hm]
      dsimp only
      rw [if_pos hi]
      exact hm
  · exact tagStep_other i u m t key hne

theorem innerFold_saturated (i : ℕ) (u : Utt) (key : String) :
    ∀ (tags : List String) (m : StageMap),
      (m key = none ∨ ∃ s, m key = some s ∧ i ∈ s.utterance_indices) →
      tags.foldl (tagStep i u) m key = m key := by
  intro tags
  induction tags with
  | nil => intro m _; rfl
  | cons t ts ih =>
      intro m h
      have hstep : tagStep i u m t key = m key := tagStep_saturated i u m t key h
      simp only [List.foldl_cons]
      rw [ih (tagStep i u m t) (by rw [hstep]; exact h), hstep]

theorem innerFold_spec (i : ℕ) (u : Utt) (key : String) :
    ∀ (tags : List String) (m : StageMap) (s : StageSummaryRec),
      m key = some s → i ∉ s.utterance_indices →
      tags.foldl (tagStep i u) m key =
        (if key ∈ tags then some (insertUtt s i u) else some s) := by
  intro tags
  induction tags with
  | nil => intro m s hs _; simpa using hs
  | cons t ts ih =>
      intro m s hs hi
      simp only [List.foldl_cons]
      by_cases ht : t = key
      · subst ht
        have hstep : tagStep i u m t t = some (insertUtt s i u) :=
          tagStep_insert i u m t s hs hi
        rw [innerFold_saturated i u t ts (tagStep i u m t)
              (Or.inr ⟨insertUtt s i u, hstep, by simp [insertUtt]⟩),
            hstep, if_pos (List.mem_cons_self t ts)]
      · have hstep : tagStep i u m t key = m key := tagStep_other i u m t key ht
        rw [ih (tagStep i u m t) s (by rw [hstep]; exact hs) hi]
        have hmem : (key ∈ t :: ts) ↔ (key ∈ ts) := by
          constructor
          · intro hc
            rcases List.mem_cons.mp hc with hc | hc
            · exact absurd hc.symm ht
            · exact hc
          · intro hc
            exact List.mem_cons_of_mem _ hc
        by_cases hk : key ∈ ts
        · rw [if_pos hk, if_pos (hmem.mpr hk)]
        · rw [if_neg hk, if_neg fun hc => hk (hmem.mp hc)]

theorem option_or_none (o : Option α) : o.or none = o := by
  cases o <;> rfl

theorem option_or_some_getD (o : Option ℚ) (a : ℚ) :
    o.or (some a) = some (o.getD a) := by
  cases o <;> rfl

theorem option_some_or (a : α) (o : Option α) : (some a).or o = some a := rfl

theorem getLast?_cons_or (a : α) (l : List α) (o : Option α) :
    ((a :: l).getLast?).or o = (l.getLast?).or (some a) := by
  cases l with
  | nil => rfl
  | cons b bs =>
      obtain ⟨z, hz⟩ := Option.isSome_iff_exists.mp
        (List.getLast?_isSome.mpr (List.cons_ne_nil b bs))
      rw [List.getLast?_cons_cons, hz]
      rfl

theorem stageMembers_cons_mem (key : String) (n : ℕ) (u : Utt) (us : List Utt)
    (hk : key ∈ u.stage_tags.getD []) :
    stageMembers key n (u :: us) = (n, u) :: stageMembers key (n + 1) us := by
  simp only [stageMembers, enumFrom, List.filter_cons]
  rw [decide_eq_true hk]
  rfl

theorem stageMembers_cons_not_mem (key : String) (n : ℕ) (u : Utt)
    (us : List Utt) (hk : key ∉ u.stage_tags.getD []) :
    stageMembers key n (u :: us) = stageMembers key (n + 1) us := by
  simp only [stageMembers, enumFrom, List.filter_cons]
  rw [decide_eq_false hk]
  rfl

theorem summarizeFrom_spec (key : String) :
    ∀ (us : List Utt) (n : ℕ) (m : StageMap) (s : StageSummaryRec),
      m key = some s → (∀ j ∈ s.utterance_indices, j < n) →
      summarizeFrom n m us key = some
        { name := s.name,
          utterance_indices :=
            s.utterance_indices ++ (stageMembers key n us).map Prod.fst,
          utterance_count :=
            s.utterance_count + (stageMembers key n us).length,
          start_time :=
            s.start_time.or (((stageMembers key n us).map fun p => p.2.start).head?),
          end_time :=
            (((stageMembers key n us).map fun p => p.2.«end»).getLast?).or s.end_time,
          status :=
            if (stageMembers key n us).isEmpty then s.status else "present" } := by
  intro us
  induction us with
  | nil =>
      intro n m s hs _
      have hsm : stageMembers key n ([] : List Utt) = [] := rfl
      rw [show summarizeFrom n m [] = m from rfl, hs]
      cases s with
      | mk name idx cnt st en status =>
          simp [hsm, option_or_none]
  | cons u us' ih =>
      intro n m s hs hb
      have hnotin : n ∉ s.utterance_indices := fun hmem =>
        absurd (hb n hmem) (lt_irrefl n)
      show summarizeFrom (n + 1) (uttStep m n u) us' key = _
      by_cases hk : key ∈ u.stage_tags.getD []
      · have hm' : uttStep m n u key = some (insertUtt s n u) := by
          unfold uttStep
          rw [innerFold_spec n u key _ m s hs hnotin, if_pos hk]
        have hb' : ∀ j ∈ (insertUtt s n u).utterance_indices, j < n + 1 := by
          intro j hj
          simp only [insertUtt, List.mem_append, List.mem_singleton] at hj
          rcases hj with hj | hj
          · exact Nat.lt_succ_of_lt (hb j hj)
          · exact hj ▸ Nat.lt_succ_self n
        rw [ih (n + 1) (uttStep m n u) (insertUtt s n u) hm' hb',
          stageMembers_cons_mem key n u us' hk]
        simp only [insertUtt, Option.some.injEq, StageSummaryRec.mk.injEq,
          List.map_cons, List.head?_cons, List.length_cons, List.isEmpty_cons]
        refine ⟨?_, ?_, ?_, ?_, ?_, ?_⟩
        · trivial
        · rw [List.append_assoc, List.singleton_append]
        · omega
        · rw [option_some_or, option_or_some_getD]
        · rw [getLast?_cons_or]
        · rw [ite_self]
          simp
      · have hm' : uttStep m n u key = some s := by
          unfold uttStep
          rw [innerFold_spec n u key _ m s hs hnotin, if_neg hk]
        have hb' : ∀ j ∈ s.utterance_indices, j < n + 1 := fun j hj =>
          Nat.lt_succ_of_lt (hb j hj)
        rw [ih (n + 1) (uttStep m n u) s hm' hb',
          stageMembers_cons_not_mem key n u us' hk]

theorem generate_stage_summary_spec (t : Transcript) (key : String)
    (hk : key ∈ STAGE_KEYS) :
    generate_stage_summary t key = some
      { name := stageNameOf key,
        utterance_indices := (stageMembers key 0 t.utterances).map Prod.fst,
        utterance_count := (stageMembers key 0 t.utterances).length,
        start_time := ((stageMembers key 0 t.utterances).map fun p => p.2.start).head?,
        end_time := ((stageMembers key 0 t.utterances).map fun p => p.2.«end»).getLast?,
        status :=
          if (stageMembers key 0 t.utterances).isEmpty then "absent" else "present" } := by
  have hinit : initStageMap key =
      some ⟨stageNameOf key, [], 0, none, none, "absent"⟩ := by
    unfold initStageMap
    rw [if_pos hk]
  rw [generate_stage_summary,
    summarizeFrom_spec key t.utterances 0 initStageMap _ hinit (by simp)]
  simp [option_or_none]

theorem enumFrom_le (us : List α) :
    ∀ (n : ℕ) (p : ℕ × α), p ∈ enumFrom n us → n ≤ p.1 := by
  induction us with
  | nil => intro n p hp; simp [enumFrom] at hp
  | cons a l ih =>
      intro n p hp
      rcases List.mem_cons.mp hp with hp | hp
      · subst hp; exact le_refl n
      · exact Nat.le_of_succ_le (ih (n + 1) p hp)

theorem enumFrom_pairwise (us : List α) :
    ∀ n : ℕ, (enumFrom n us).Pairwise fun p q => p.1 < q.1 := by
  induction us with
  | nil => intro n; exact List.Pairwise.nil
  | cons a l ih =>
      intro n
      exact List.Pairwise.cons
        (fun q hq => Nat.lt_of_succ_le (enumFrom_le l (n + 1) q hq)) (ih (n + 1))

theorem stageMembers_map_snd (key : String) (us : List Utt) :
    ∀ n : ℕ, (stageMembers key n us).map Prod.snd =
      us.filter fun u => key ∈ u.stage_tags.getD [] := by
  induction us with
  | nil => intro n; rfl
  | cons u l ih =>
      intro n
      by_cases hk : key ∈ u.stage_tags.getD []
      · rw [stageMembers_cons_mem key n u l hk, List.map_cons, ih (n + 1),
          List.filter_cons, decide_eq_true hk]
        simp
      · rw [stageMembers_cons_not_mem key n u l hk, ih (n + 1),
          List.filter_cons, decide_eq_false hk]
        simp

theorem stageMembers_length (key : String) (us : List Utt) (n : ℕ) :
    (stageMembers key n us).length =
      (us.filter fun u => key ∈ u.stage_tags.getD []).length := by
  rw [← stageMembers_map_snd key us n, List.length_map]

theorem stageMembers_pairwise (key : String) (us : List Utt) (n : ℕ) :
    (stageMembers key n us).Pairwise fun p q => p.1 < q.1 :=
  List.Pairwise.filter _ (enumFrom_pairwise us n)

theorem pairwise_getLast? {R : α → α → Prop} :
    ∀ (l : List α), l.Pairwise R → ∀ z, l.getLast? = some z →
      ∀ u ∈ l, u = z ∨ R u z := by
  intro l
  induction l with
  | nil => intro _ z hz; simp at hz
  | cons a l ih =>
      intro hp z hz u hu
      cases l with
      | nil =>
          rcases List.mem_singleton.mp hu with rfl
          left
          simpa using hz
      | cons b bs =>
          rw [List.getLast?_cons_cons] at hz
          rcases List.mem_cons.mp hu with rfl | hu
          · right
            exact (List.pairwise_cons.mp hp).1 z (List.mem_of_mem_getLast? hz)
          · exact ih (List.pairwise_cons.mp hp).2 z hz u hu

/-- C7: after stage aggregation, every taxonomy stage's summary satisfies
`utterance_count = len(utterance_indices)`, the indices are duplicate-free and
ascending, the count equals the number of utterances whose `stage_tags`
contain the key, and a stage with zero tagged utterances has status
`absent`. -/
theorem claim_C7_stage_summary_invariants (t : Transcript) (key : String)
    (hk : key ∈ STAGE_KEYS) :
    ∃ r, generate_stage_summary t key = some r ∧
      r.utterance_count = r.utterance_indices.length ∧
      r.utterance_indices.Nodup ∧
      r.utterance_indices.Pairwise (· < ·) ∧
      r.utterance_count =
        (t.utterances.filter fun u => key ∈ u.stage_tags.getD []).length ∧
      (r.utterance_count = 0 → r.status = "absent") := by
  refine ⟨_, generate_stage_summary_spec t key hk, ?_, ?_, ?_, ?_, ?_⟩
  · dsimp only
    rw [List.length_map]
  · dsimp only
    exact ((List.pairwise_map.mpr (stageMembers_pairwise key t.utterances 0)).imp
      fun h => Nat.ne_of_lt h)
  · dsimp only
    exact List.pairwise_map.mpr (stageMembers_pairwise key t.utterances 0)
  · dsimp only
    exact stageMembers_length key t.utterances 0
  · dsimp only
    intro hc
    rw [if_pos (by rw [List.isEmpty_iff, ← List.length_eq_zero]; exact hc)]

theorem claim_C7_stage_summary_invariants_witness :
    ∃ r, generate_stage_summary
        (Transcript.mk
          [Utt.mk "B" "Hey Luis" 1 2 1 (some "introduction")
            (some ["introduction"]) (some 1) (some "") (some [])] none none)
        "introduction" = some r ∧
      r.utterance_count = r.utterance_indices.length ∧
      r.utterance_indices.Nodup ∧
      r.utterance_indices.Pairwise (· < ·) ∧
      r.utterance_count =
        ([Utt.mk "B" "Hey Luis" 1 2 1 (some "introduction")
            (some ["introduction"]) (some 1) (some "") (some [])].filter
          fun u => "introduction" ∈ u.stage_tags.getD []).length ∧
      (r.utterance_count = 0 → r.status = "absent") :=
  claim_C7_stage_summary_invariants _ "introduction" (by decide)

theorem map_snd_start (l : List (ℕ × Utt)) :
    l.map (fun p => p.2.start) = (l.map Prod.snd).map Utt.start := by
  induction l with
  | nil => rfl
  | cons p rest ih => simp [ih]

theorem map_snd_end (l : List (ℕ × Utt)) :
    l.map (fun p => p.2.«end») = (l.map Prod.snd).map Utt.«end» := by
  induction l with
  | nil => rfl
  | cons p rest ih => simp [ih]

/-- C2: under the data model's temporal ordering of the utterance stream
(sequence order = temporal order), a stage with at least one tagged utterance
gets `start_time` equal to the minimum `start` over its members and `end_time`
equal to the maximum `end` over its members (stated as: an attained lower /
upper bound), while a stage with no tagged utterances keeps both `null`. -/
theorem claim_C2_stage_time_bounds (t : Transcript) (key : String)
    (hk : key ∈ STAGE_KEYS)
    (hsort : t.utterances.Pairwise fun u v => u.start ≤ v.start ∧ u.«end» ≤ v.«end») :
    ∃ r, generate_stage_summary t key = some r ∧
      ((t.utterances.filter fun u => key ∈ u.stage_tags.getD []) = [] →
        r.start_time = none ∧ r.end_time = none) ∧
      ((t.utterances.filter fun u => key ∈ u.stage_tags.getD []) ≠ [] →
        ∃ s e, r.start_time = some s ∧ r.end_time = some e ∧
          s ∈ (t.utterances.filter fun u => key ∈ u.stage_tags.getD []).map Utt.start ∧
          e ∈ (t.utterances.filter fun u => key ∈ u.stage_tags.getD []).map Utt.«end» ∧
          ∀ u ∈ t.utterances.filter fun u => key ∈ u.stage_tags.getD [],
            s ≤ u.start ∧ u.«end» ≤ e) := by
  refine ⟨_, generate_stage_summary_spec t key hk, ?_, ?_⟩
  · intro hempty
    constructor
    · dsimp only
      rw [map_snd_start, stageMembers_map_snd, hempty]
      rfl
    · dsimp only
      rw [map_snd_end, stageMembers_map_snd, hempty]
      rfl
  · intro hne
    obtain ⟨m0, rest, hm⟩ := List.exists_cons_of_ne_nil hne
    have hpmem :
        (t.utterances.filter fun u => key ∈ u.stage_tags.getD []).Pairwise
          fun u v => u.start ≤ v.start ∧ u.«end» ≤ v.«end» :=
      List.Pairwise.filter _ hsort
    obtain ⟨z, hz⟩ := Option.isSome_iff_exists.mp (List.getLast?_isSome.mpr hne)
    refine ⟨m0.start, z.«end», ?_, ?_, ?_, ?_, ?_⟩
    · dsimp only
      rw [map_snd_start, stageMembers_map_snd, hm]
      rfl
    · dsimp only
      rw [map_snd_end, stageMembers_map_snd, List.getLast?_map, hz]
      rfl
    · exact List.mem_map_of_mem Utt.start (hm ▸ List.mem_cons_self m0 rest)
    · exact List.mem_map_of_mem Utt.«end» (List.mem_of_mem_getLast? hz)
    · intro u hu
      constructor
      · rw [hm] at hpmem
        rcases List.mem_cons.mp (hm ▸ hu) with rfl | hurest
        · exact le_refl _
        · exact ((List.pairwise_cons.mp hpmem).1 u hurest).1
      · rcases pairwise_getLast? _ hpmem z hz u hu with rfl | hR
        · exact le_refl _
        · exact hR.2

theorem claim_C2_stage_time_bounds_witness :
    ∃ r, generate_stage_summary
        (Transcript.mk
          [Utt.mk "B" "Hi" 1 2 1 (some "introduction")
            (some ["introduction"]) (some 1) (some "") (some []),
          Utt.mk "A" "Hello" 3 4 1 (some "introduction")
            (some ["introduction"]) (some 1) (some "") (some [])] none none)
        "introduction" = some r ∧
      (([Utt.mk "B" "Hi" 1 2 1 (some "introduction")
            (some ["introduction"]) (some 1) (some "") (some []),
          Utt.mk "A" "Hello" 3 4 1 (some "introduction")
            (some ["introduction"]) (some 1) (some "") (some [])].filter
          fun u => "introduction" ∈ u.stage_tags.getD []) = [] →
        r.start_time = none ∧ r.end_time = none) ∧
      (([Utt.mk "B" "Hi" 1 2 1 (some "introduction")
            (some ["introduction"]) (some 1) (some "") (some []),
          Utt.mk "A" "Hello" 3 4 1 (some "introduction")
            (some ["introduction"]) (some 1) (some "") (some [])].filter
          fun u => "introduction" ∈ u.stage_tags.getD []) ≠ [] →
        ∃ s e, r.start_time = some s ∧ r.end_time = some e ∧
          s ∈ ([Utt.mk "B" "Hi" 1 2 1 (some "introduction")
            (some ["introduction"]) (some 1) (some "") (some []),
          Utt.mk "A" "Hello" 3 4 1 (some "introduction")
            (some ["introduction"]) (some 1) (some "") (some [])].filter
              fun u => "introduction" ∈ u.stage_tags.getD []).map Utt.start ∧
          e ∈ ([Utt.mk "B" "Hi" 1 2 1 (some "introduction")
            (some ["introduction"]) (some 1) (some "") (some []),
          Utt.mk "A" "Hello" 3 4 1 (some "introduction")
            (some ["introduction"]) (some 1) (some "") (some [])].filter
              fun u => "introduction" ∈ u.stage_tags.getD []).map Utt.«end» ∧
          ∀ u ∈ [Utt.mk "B" "Hi" 1 2 1 (some "introduction")
            (some ["introduction"]) (some 1) (some "") (some []),
          Utt.mk "A" "Hello" 3 4 1 (some "introduction")
            (some ["introduction"]) (some 1) (some "") (some [])].filter
              fun u => "introduction" ∈ u.stage_tags.getD [],
            s ≤ u.start ∧ u.«end» ≤ e) :=
  claim_C2_stage_time_bounds _ "introduction" (by decide) (by decide)

/-! ## Theorems: label merging -/

theorem mergeUtterancesFrom_length (labels : List Label) :
    ∀ (utts : List Utt) (n : ℕ),
      (mergeUtterancesFrom labels n utts).length = utts.length := by
  intro utts
  induction utts with
  | nil => intro n; rfl
  | cons u us ih => intro n; simp [mergeUtterancesFrom, ih]

theorem mergeUtterancesFrom_getElem? (labels : List Label) :
    ∀ (utts : List Utt) (n k : ℕ),
      (mergeUtterancesFrom labels n utts)[k]? =
        (utts[k]?).map fun u => applyLabelAt labels (n + k) u := by
  intro utts
  induction utts with
  | nil => intro n k; rfl
  | cons u us ih =>
      intro n k
      cases k with
      | zero => simp [mergeUtterancesFrom]
      | succ k =>
          have harith : n + (k + 1) = (n + 1) + k := by omega
          simp only [mergeUtterancesFrom, List.getElem?_cons_succ, harith]
          exact ih (n + 1) k

theorem labelContent_fields (lab₁ lab₂ : Label)
    (h : labelContent lab₁ = labelContent lab₂) :
    lab₁.primary_stage = lab₂.primary_stage ∧ lab₁.stage_tags = lab₂.stage_tags ∧
    lab₁.confidence = lab₂.confidence ∧ lab₁.reasoning = lab₂.reasoning := by
  simp only [labelContent, Prod.mk.injEq] at h
  exact h

theorem applyLabelAt_content (l₁ l₂ : List Label)
    (h : l₁.map labelContent = l₂.map labelContent) (i : ℕ) (u : Utt) :
    applyLabelAt l₁ i u = applyLabelAt l₂ i u := by
  have hmap : (l₁[i]?).map labelContent = (l₂[i]?).map labelContent := by
    rw [← List.getElem?_map, ← List.getElem?_map, h]
  unfold applyLabelAt
  cases h₁ : l₁[i]? with
  | none =>
      rw [h₁] at hmap
      cases h₂ : l₂[i]? with
      | none => rfl
      | some lab₂ => rw [h₂] at hmap; exact absurd hmap (by simp)
  | some lab₁ =>
      rw [h₁] at hmap
      cases h₂ : l₂[i]? with
      | none => rw [h₂] at hmap; exact absurd hmap (by simp)
      | some lab₂ =>
          rw [h₂] at hmap
          have hmap' : labelContent lab₁ = labelContent lab₂ := by
            simpa using hmap
          obtain ⟨hp, ht, hc, hr⟩ := labelContent_fields lab₁ lab₂ hmap'
          dsimp only
          rw [hp, ht, hc, hr]

theorem mergeUtterancesFrom_content (l₁ l₂ : List Label)
    (h : l₁.map labelContent = l₂.map labelContent) :
    ∀ (utts : List Utt) (n : ℕ),
      mergeUtterancesFrom l₁ n utts = mergeUtterancesFrom l₂ n utts := by
  intro utts
  induction utts with
  | nil => intro n; rfl
  | cons u us ih =>
      intro n
      simp only [mergeUtterancesFrom]
      rw [applyLabelAt_content l₁ l₂ h n u, ih (n + 1)]

/-- C10: the label merge is positional — the `k`-th returned label is written
onto the utterance at list position `k` (trailing utterances beyond the label
count are left untouched, hence without stage fields), and the merge result
does not depend on the labels' own `index` fields. -/
theorem claim_C10_positional_merge (t : Transcript) (res : LabelsResult) :
    (∀ k, k < t.utterances.length →
      ∃ orig, t.utterances[k]? = some orig ∧
        (merge_labels_with_transcript t res).1.utterances[k]? =
          some (match res.labels[k]? with
            | some lab =>
                { orig with primary_stage := some lab.primary_stage,
                            stage_tags := some lab.stage_tags,
                            stage_confidence := some lab.confidence,
                            stage_reasoning := some lab.reasoning,
                            annotations := some [] }
            | none => orig)) ∧
    (∀ res₂ : LabelsResult,
      res.labels.map labelContent = res₂.labels.map labelContent →
      res.speaker_identification = res₂.speaker_identification →
      res.overall_notes = res₂.overall_notes →
      merge_labels_with_transcript t res = merge_labels_with_transcript t res₂) := by
  constructor
  · intro k hk
    refine ⟨t.utterances[k], List.getElem?_eq_getElem hk, ?_⟩
    show (mergeUtterancesFrom res.labels 0 t.utterances)[k]? = _
    rw [mergeUtterancesFrom_getElem? res.labels t.utterances 0 k,
      List.getElem?_eq_getElem hk]
    simp only [Option.map_some, Option.some.injEq, Nat.zero_add]
    unfold applyLabelAt
    cases res.labels[k]? <;> rfl
  · intro res₂ hcontent hsid hnotes
    have hlen : res.labels.length = res₂.labels.length := by
      have := congrArg List.length hcontent
      simpa using this
    have hprim : res.labels.map (·.primary_stage) = res₂.labels.map (·.primary_stage) := by
      have h1 : res.labels.map (·.primary_stage) =
          (res.labels.map labelContent).map (·.1) := by
        rw [List.map_map]; rfl
      have h2 : res₂.labels.map (·.primary_stage) =
          (res₂.labels.map labelContent).map (·.1) := by
        rw [List.map_map]; rfl
      rw [h1, h2, hcontent]
    simp only [merge_labels_with_transcript]
    rw [mergeUtterancesFrom_content res.labels res₂.labels hcontent, hlen, hprim,
      hsid, hnotes]

theorem claim_C10_positional_merge_witness :
    (∃ orig,
      [Utt.mk "A" "x" 1 2 1 none none none none none,
       Utt.mk "B" "y" 3 4 1 none none none none none][0]? = some orig ∧
      (merge_labels_with_transcript
        (Transcript.mk
          [Utt.mk "A" "x" 1 2 1 none none none none none,
           Utt.mk "B" "y" 3 4 1 none none none none none] none none)
        (LabelsResult.mk [Label.mk 99 "introduction" ["introduction"] 1 "r"]
          [] "n")).1.utterances[0]? =
        some (Utt.mk orig.speaker orig.text orig.start orig.«end» orig.confidence
          (some "introduction") (some ["introduction"]) (some 1) (some "r")
          (some []))) ∧
    merge_labels_with_transcript
        (Transcript.mk
          [Utt.mk "A" "x" 1 2 1 none none none none none,
           Utt.mk "B" "y" 3 4 1 none none none none none] none none)
        (LabelsResult.mk [Label.mk 99 "introduction" ["introduction"] 1 "r"]
          [] "n") =
      merge_labels_with_transcript
        (Transcript.mk
          [Utt.mk "A" "x" 1 2 1 none none none none none,
           Utt.mk "B" "y" 3 4 1 none none none none none] none none)
        (LabelsResult.mk [Label.mk (-5) "introduction" ["introduction"] 1 "r"]
          [] "n") :=
  ⟨(claim_C10_positional_merge
      (Transcript.mk
        [Utt.mk "A" "x" 1 2 1 none none none none none,
         Utt.mk "B" "y" 3 4 1 none none none none none] none none)
      (LabelsResult.mk [Label.mk 99 "introduction" ["introduction"] 1 "r"]
        [] "n")).1 0 (by decide),
   (claim_C10_positional_merge
      (Transcript.mk
        [Utt.mk "A" "x" 1 2 1 none none none none none,
         Utt.mk "B" "y" 3 4 1 none none none none none] none none)
      (LabelsResult.mk [Label.mk 99 "introduction" ["introduction"] 1 "r"]
        [] "n")).2
     (LabelsResult.mk [Label.mk (-5) "introduction" ["introduction"] 1 "r"]
       [] "n") (by decide) rfl rfl⟩

theorem chunkListAux_flatten (bs : ℕ) (hbs : 0 < bs) :
    ∀ (fuel : ℕ) (l : List α), l.length ≤ fuel →
      (chunkListAux bs fuel l).flatten = l := by
  intro fuel
  induction fuel with
  | zero =>
      intro l hl
      cases l with
      | nil => rfl
      | cons a l => simp at hl
  | succ f ih =>
      intro l hl
      cases l with
      | nil => rfl
      | cons a l =>
          show (if bs = 0 then [] else
            (a :: l).take bs :: chunkListAux bs f ((a :: l).drop bs)).flatten = _
          rw [if_neg (by omega), List.flatten_cons,
            ih ((a :: l).drop bs) (by simp only [List.length_drop]; simp at hl; simp; omega),
            List.take_append_drop]

theorem chunkList_flatten (bs : ℕ) (hbs : 0 < bs) (l : List α) :
    (chunkList bs l).flatten = l :=
  chunkListAux_flatten bs hbs l.length l (le_refl _)

theorem sum_lt_sum_of_lt (f g : α → ℕ) :
    ∀ (l : List α), (∀ x ∈ l, f x ≤ g x) → (∃ x ∈ l, f x < g x) →
      (l.map f).sum < (l.map g).sum := by
  intro l
  induction l with
  | nil => intro _ hex; simp at hex
  | cons a rest ih =>
      intro hle hex
      simp only [List.map_cons, List.sum_cons]
      have hrle : (rest.map f).sum ≤ (rest.map g).sum :=
        List.sum_le_sum fun x hx => hle x (List.mem_cons_of_mem a hx)
      rcases hex with ⟨x, hx, hlt⟩
      rcases List.mem_cons.mp hx with rfl | hx
      · exact Nat.add_lt_add_of_lt_of_le hlt hrle
      · exact Nat.add_lt_add_of_le_of_lt (hle a (List.mem_cons_self a rest))
          (ih (fun y hy => hle y (List.mem_cons_of_mem a hy)) ⟨x, hx, hlt⟩)

theorem labelBatches_length_sum (utts : List Utt) (bs : ℕ) (hbs : 0 < bs) :
    ((labelBatches utts bs).map List.length).sum = utts.length := by
  unfold labelBatches
  rw [List.map_map]
  have hcomp : (List.length ∘ fun idxs : List ℕ =>
      idxs.map fun i => CtxBatch.mk i (create_context_window utts i 4)) =
      List.length := by
    funext idxs
    simp
  rw [hcomp]
  calc (List.map List.length (chunkList bs (List.range utts.length))).sum
      = (chunkList bs (List.range utts.length)).flatten.length :=
        (List.length_flatten _).symm
    _ = (List.range utts.length).length := by
        rw [chunkList_flatten bs hbs (List.range utts.length)]
    _ = utts.length := List.length_range _

/-- C3: when the classification capability returns at most one label per
target and some batch returns fewer (for example 13 labels for a batch of 15),
labeling and the merge still complete (both are total functions of the oracle
responses), the batch discrepancy and the final count mismatch are logged as
warnings, the uncovered trailing utterances keep empty `stage_tags`, and every
covered utterance receives its returned label. -/
theorem claim_C3_cardinality_mismatch_tolerated (t : Transcript)
    (oracle : List CtxBatch → List Label) (speakerId : List (String × String))
    (bs : ℕ) (hbs : 0 < bs)
    (hraw : ∀ u ∈ t.utterances, u.stage_tags = none)
    (hle : ∀ b ∈ labelBatches t.utterances bs, (oracle b).length ≤ b.length)
    (hshort : ∃ b ∈ labelBatches t.utterances bs, (oracle b).length < b.length) :
    (label_utterances_with_gpt oracle speakerId t.utterances bs).1.labels.length <
      t.utterances.length ∧
    (label_utterances_with_gpt oracle speakerId t.utterances bs).2 ≠ [] ∧
    (merge_labels_with_transcript t
      (label_utterances_with_gpt oracle speakerId t.utterances bs).1).2 = true ∧
    (∀ k : ℕ,
      (label_utterances_with_gpt oracle speakerId t.utterances bs).1.labels.length ≤ k →
      k < t.utterances.length →
      ∃ u, (merge_labels_with_transcript t
          (label_utterances_with_gpt oracle speakerId t.utterances bs).1).1.utterances[k]? =
            some u ∧
        u.stage_tags.getD [] = []) ∧
    (∀ (k : ℕ) (lab : Label),
      (label_utterances_with_gpt oracle speakerId t.utterances bs).1.labels[k]? = some lab →
      ∃ u, (merge_labels_with_transcript t
          (label_utterances_with_gpt oracle speakerId t.utterances bs).1).1.utterances[k]? =
            some u ∧
        u.stage_tags = some lab.stage_tags ∧
        u.primary_stage = some lab.primary_stage) := by
  have hlabels : (label_utterances_with_gpt oracle speakerId t.utterances bs).1.labels =
      ((labelBatches t.utterances bs).map oracle).flatten := rfl
  have hlt : (label_utterances_with_gpt oracle speakerId t.utterances bs).1.labels.length <
      t.utterances.length := by
    rw [hlabels, List.length_flatten, List.map_map,
      ← labelBatches_length_sum t.utterances bs hbs]
    exact sum_lt_sum_of_lt _ _ _ hle hshort
  refine ⟨hlt, ?_, ?_, ?_, ?_⟩
  · obtain ⟨b, hb, hblt⟩ := hshort
    have hmem : b ∈ (label_utterances_with_gpt oracle speakerId t.utterances bs).2 := by
      show b ∈ (labelBatches t.utterances bs).filter
        fun b => (oracle b).length ≠ b.length
      exact List.mem_filter.mpr ⟨hb, decide_eq_true (Nat.ne_of_lt hblt)⟩
    exact List.ne_nil_of_mem hmem
  · show decide ((label_utterances_with_gpt oracle speakerId t.utterances bs).1.labels.length ≠
      t.utterances.length) = true
    exact decide_eq_true (Nat.ne_of_lt hlt)
  · intro k hkL hkN
    show ∃ u, (mergeUtterancesFrom
        (label_utterances_with_gpt oracle speakerId t.utterances bs).1.labels 0
        t.utterances)[k]? = some u ∧ u.stage_tags.getD [] = []
    rw [mergeUtterancesFrom_getElem?, List.getElem?_eq_getElem hkN]
    refine ⟨_, rfl, ?_⟩
    unfold applyLabelAt
    rw [Nat.zero_add, List.getElem?_eq_none_iff.mpr hkL]
    dsimp only
    rw [hraw t.utterances[k] (List.getElem_mem hkN)]
    rfl
  · intro k lab hlab
    have hkL : k < (label_utterances_with_gpt oracle speakerId t.utterances bs).1.labels.length := by
      by_contra hcon
      rw [List.getElem?_eq_none_iff.mpr (Nat.le_of_not_lt hcon)] at hlab
      cases hlab
    have hkN : k < t.utterances.length := lt_trans hkL hlt
    show ∃ u, (mergeUtterancesFrom
        (label_utterances_with_gpt oracle speakerId t.utterances bs).1.labels 0
        t.utterances)[k]? = some u ∧ _ ∧ _
    rw [mergeUtterancesFrom_getElem?, List.getElem?_eq_getElem hkN]
    refine ⟨_, rfl, ?_, ?_⟩
    · unfold applyLabelAt
      rw [Nat.zero_add, hlab]
    · unfold applyLabelAt
      rw [Nat.zero_add, hlab]

theorem claim_C3_cardinality_mismatch_tolerated_witness :
    (∃ b ∈ labelBatches demoTranscript.utterances 15,
      (demoOracle b).length < b.length) ∧
    ((label_utterances_with_gpt demoOracle [] demoTranscript.utterances 15).1.labels.length <
      demoTranscript.utterances.length ∧
    (label_utterances_with_gpt demoOracle [] demoTranscript.utterances 15).2 ≠ [] ∧
    (merge_labels_with_transcript demoTranscript
      (label_utterances_with_gpt demoOracle [] demoTranscript.utterances 15).1).2 = true ∧
    (∀ k : ℕ,
      (label_utterances_with_gpt demoOracle [] demoTranscript.utterances 15).1.labels.length ≤ k →
      k < demoTranscript.utterances.length →
      ∃ u, (merge_labels_with_transcript demoTranscript
          (label_utterances_with_gpt demoOracle [] demoTranscript.utterances 15).1).1.utterances[k]? =
            some u ∧
        u.stage_tags.getD [] = []) ∧
    (∀ (k : ℕ) (lab : Label),
      (label_utterances_with_gpt demoOracle [] demoTranscript.utterances 15).1.labels[k]? = some lab →
      ∃ u, (merge_labels_with_transcript demoTranscript
          (label_utterances_with_gpt demoOracle [] demoTranscript.utterances 15).1).1.utterances[k]? =
            some u ∧
        u.stage_tags = some lab.stage_tags ∧
        u.primary_stage = some lab.primary_stage)) :=
  ⟨by decide,
   claim_C3_cardinality_mismatch_tolerated demoTranscript demoOracle [] 15
     (by decide) (by decide) (by decide) (by decide)⟩

/-! ## Theorems: annotation merging -/

theorem find?_map_updateKey (key : Int) (a : Annot) (j : Int) :
    ∀ m : List (Int × List Annot),
      (m.map fun p => if p.1 = key then (p.1, p.2 ++ [a]) else p).find?
          (fun p => p.1 = j) =
        (m.find? fun p => p.1 = j).map
          fun p => if p.1 = key then (p.1, p.2 ++ [a]) else p := by
  intro m
  induction m with
  | nil => rfl
  | cons q qs ih =>
      simp only [List.map_cons, List.find?_cons]
      have hfst : (if q.1 = key then (q.1, q.2 ++ [a]) else q).1 = q.1 := by
        by_cases hq : q.1 = key
        · rw [if_pos hq]
        · rw [if_neg hq]
      by_cases hj : q.1 = j
      · rw [show (decide ((if q.1 = key then (q.1, q.2 ++ [a]) else q).1 = j)) = true
            from by rw [hfst]; exact decide_eq_true hj,
          decide_eq_true hj]
        rfl
      · rw [show (decide ((if q.1 = key then (q.1, q.2 ++ [a]) else q).1 = j)) = false
            from by rw [hfst]; exact decide_eq_false hj,
          decide_eq_false hj]
        exact ih

theorem find?_append_or (l₁ l₂ : List α) (p : α → Bool) :
    (l₁ ++ l₂).find? p = (l₁.find? p).or (l₂.find? p) := by
  induction l₁ with
  | nil => rfl
  | cons a l ih =>
      simp only [List.cons_append, List.find?_cons]
      cases p a with
      | true => rfl
      | false => exact ih

theorem insertAnnot_lookup (m : List (Int × List Annot)) (a : Annot) (j : Int) :
    (((insertAnnot m a).find? fun p => p.1 = j).map Prod.snd).getD [] =
      (((m.find? fun p => p.1 = j).map Prod.snd).getD []) ++
        (if a.utterance_index = j then [a] else []) := by
  unfold insertAnnot
  by_cases hex : (m.any fun p => p.1 = a.utterance_index) = true
  · rw [if_pos hex, find?_map_updateKey]
    cases hfind : m.find? fun p => p.1 = j with
    | none =>
        by_cases hj : a.utterance_index = j
        · exfalso
          obtain ⟨p, hp, hpk⟩ := List.any_eq_true.mp hex
          have hsome : (m.find? fun p => p.1 = j).isSome :=
            List.find?_isSome.mpr
              ⟨p, hp, decide_eq_true (by
                rw [of_decide_eq_true hpk, hj])⟩
          rw [hfind] at hsome
          exact absurd hsome (by simp)
        · rw [if_neg hj]
          simp
    | some p =>
        have hp' := List.find?_some hfind
        have hpj : p.1 = j := of_decide_eq_true hp'
        by_cases hj : a.utterance_index = j
        · have hcond : p.1 = a.utterance_index := by rw [hpj, hj]
          rw [if_pos hj]
          show (if p.1 = a.utterance_index then (p.1, p.2 ++ [a]) else p).2 =
            p.2 ++ [a]
          rw [if_pos hcond]
        · have hcond : ¬ p.1 = a.utterance_index := by
            rw [hpj]; exact fun hc => hj hc.symm
          rw [if_neg hj]
          show (if p.1 = a.utterance_index then (p.1, p.2 ++ [a]) else p).2 =
            p.2 ++ []
          rw [if_neg hcond]
          simp
  · rw [if_neg hex, find?_append_or]
    cases hfind : m.find? fun p => p.1 = j with
    | some p =>
        have hpmem : p ∈ m := List.mem_of_find?_eq_some hfind
        have hp' := List.find?_some hfind
        have hpj : p.1 = j := of_decide_eq_true hp' 
        by_cases hj : a.utterance_index = j
        · exfalso
          have hfalse : (m.any fun p => decide (p.1 = a.utterance_index)) = false := by
            cases hh : (m.any fun p => decide (p.1 = a.utterance_index)) with
            | true => exact absurd hh hex
            | false => rfl
          exact List.any_eq_false.mp hfalse p hpmem
            (decide_eq_true (by rw [hpj, hj]))
        · simp [hj]
    | none =>
        by_cases hj : a.utterance_index = j
        · rw [if_pos hj]
          simp only [List.find?_cons, decide_eq_true hj]
          simp
        · rw [if_neg hj]
          simp only [List.find?_cons, decide_eq_false hj]
          simp

theorem annotationMap_lookup_gen :
    ∀ (anns : List Annot) (m : List (Int × List Annot)) (j : Int),
      (((anns.foldl insertAnnot m).find? fun p => p.1 = j).map Prod.snd).getD [] =
        (((m.find? fun p => p.1 = j).map Prod.snd).getD []) ++
          anns.filter fun a => a.utterance_index = j := by
  intro anns
  induction anns with
  | nil => intro m j; simp
  | cons a rest ih =>
      intro m j
      simp only [List.foldl_cons, List.filter_cons]
      rw [ih (insertAnnot m a) j, insertAnnot_lookup]
      by_cases hj : a.utterance_index = j
      · rw [if_pos hj, decide_eq_true hj]
        simp
      · rw [if_neg hj, decide_eq_false hj]
        simp

theorem annotationMap_lookup (anns : List Annot) (j : Int) :
    (((annotationMap anns).find? fun p => p.1 = j).map Prod.snd).getD [] =
      anns.filter fun a => a.utterance_index = j := by
  unfold annotationMap
  rw [annotationMap_lookup_gen anns [] j]
  rfl

theorem insertAnnot_keys (m : List (Int × List Annot)) (a : Annot) :
    (insertAnnot m a).map Prod.fst =
      (if (m.any fun p => p.1 = a.utterance_index) = true then m.map Prod.fst
       else m.map Prod.fst ++ [a.utterance_index]) := by
  unfold insertAnnot
  by_cases hex : (m.any fun p => p.1 = a.utterance_index) = true
  · rw [if_pos hex, if_pos hex, List.map_map]
    have hcomp : (Prod.fst ∘ fun p : Int × List Annot =>
        if p.1 = a.utterance_index then (p.1, p.2 ++ [a]) else p) = Prod.fst := by
      funext p
      show (if p.1 = a.utterance_index then (p.1, p.2 ++ [a]) else p).1 = p.1
      by_cases hp : p.1 = a.utterance_index
      · rw [if_pos hp]
      · rw [if_neg hp]
    rw [hcomp]
  · rw [if_neg hex, if_neg hex, List.map_append]
    rfl

theorem annotationMap_keys_nodup_gen :
    ∀ (anns : List Annot) (m : List (Int × List Annot)),
      (m.map Prod.fst).Nodup → ((anns.foldl insertAnnot m).map Prod.fst).Nodup := by
  intro anns
  induction anns with
  | nil => intro m hm; exact hm
  | cons a rest ih =>
      intro m hm
      simp only [List.foldl_cons]
      apply ih
      rw [insertAnnot_keys]
      by_cases hex : (m.any fun p => p.1 = a.utterance_index) = true
      · rw [if_pos hex]; exact hm
      · rw [if_neg hex]
        have hfalse : (m.any fun p => p.1 = a.utterance_index) = false := by
          cases hh : (m.any fun p => p.1 = a.utterance_index) with
          | true => exact absurd hh hex
          | false => rfl
        have hnotmem : a.utterance_index ∉ m.map Prod.fst := by
          intro hmem
          obtain ⟨p, hp, hpk⟩ := List.mem_map.mp hmem
          exact absurd (decide_eq_true (show p.1 = a.utterance_index from hpk))
            (List.any_eq_false.mp hfalse p hp)
        exact List.Nodup.append hm (List.nodup_singleton _)
          fun x hx hx' => hnotmem ((List.mem_singleton.mp hx') ▸ hx)

theorem insertAnnot_key_origin (m : List (Int × List Annot)) (a : Annot)
    (p : Int × List Annot) (hp : p ∈ insertAnnot m a) :
    p.1 ∈ m.map Prod.fst ∨ p.1 = a.utterance_index := by
  unfold insertAnnot at hp
  by_cases hex : (m.any fun p => p.1 = a.utterance_index) = true
  · rw [if_pos hex] at hp
    obtain ⟨q, hq, hqp⟩ := List.mem_map.mp hp
    left
    have : p.1 = q.1 := by
      rw [← hqp]
      by_cases hqk : q.1 = a.utterance_index
      · rw [if_pos hqk]
      · rw [if_neg hqk]
    rw [this]
    exact List.mem_map_of_mem Prod.fst hq
  · rw [if_neg hex] at hp
    rcases List.mem_append.mp hp with hp | hp
    · exact Or.inl (List.mem_map_of_mem Prod.fst hp)
    · right
      rw [List.mem_singleton.mp hp]

theorem annotationMap_keys_nonneg_gen :
    ∀ (anns : List Annot) (m : List (Int × List Annot)),
      (∀ p ∈ m, 0 ≤ p.1) → (∀ a ∈ anns, 0 ≤ a.utterance_index) →
      ∀ p ∈ anns.foldl insertAnnot m, 0 ≤ p.1 := by
  intro anns
  induction anns with
  | nil => intro m hm _ p hp; exact hm p hp
  | cons a rest ih =>
      intro m hm hnn p hp
      simp only [List.foldl_cons] at hp
      refine ih (insertAnnot m a) ?_ (fun x hx => hnn x (List.mem_cons_of_mem a hx)) p hp
      intro q hq
      rcases insertAnnot_key_origin m a q hq with hk | hk
      · obtain ⟨r, hr, hrk⟩ := List.mem_map.mp hk
        rw [← hrk]
        exact hm r hr
      · rw [hk]
        exact hnn a (List.mem_cons_self a rest)

theorem modifyAt_getElem? (f : α → α) :
    ∀ (l : List α) (n k : ℕ),
      (modifyAt f l n)[k]? = if n = k then (l[k]?).map f else l[k]? := by
  intro l
  induction l with
  | nil =>
      intro n k
      by_cases h : n = k <;> simp [modifyAt, h]
  | cons x xs ih =>
      intro n k
      cases n with
      | zero =>
          cases k with
          | zero => simp [modifyAt]
          | succ k => simp [modifyAt]
      | succ n =>
          cases k with
          | zero => simp [modifyAt]
          | succ k =>
              simp only [modifyAt, List.getElem?_cons_succ,
                Nat.add_right_cancel_iff]
              exact ih n k

theorem modifyAt_length (f : α → α) :
    ∀ (l : List α) (n : ℕ), (modifyAt f l n).length = l.length := by
  intro l
  induction l with
  | nil => intro n; rfl
  | cons x xs ih =>
      intro n
      cases n with
      | zero => rfl
      | succ n => simp [modifyAt, ih]

theorem annot_foldlM_ok (N : Int) :
    ∀ (groups : List (Int × List Annot)) (us : List Utt),
      (∀ p ∈ groups, 0 ≤ p.1) →
      (groups.foldlM (fun (us : List Utt) (p : Int × List Annot) =>
          if p.1 < N then
            if 0 ≤ p.1 then Except.ok (modifyAt (addAnnots p.2) us p.1.toNat)
            else if 0 ≤ p.1 + N then
              Except.ok (modifyAt (addAnnots p.2) us (p.1 + N).toNat)
            else Except.error "IndexError: list index out of range"
          else Except.ok us)
        us : Except String (List Utt)) =
      Except.ok (groups.foldl (fun us p =>
          if p.1 < N then modifyAt (addAnnots p.2) us p.1.toNat else us) us) := by
  intro groups
  induction groups with
  | nil => intro us _; rfl
  | cons p ps ih =>
      intro us hpos
      have h0 : 0 ≤ p.1 := hpos p (List.mem_cons_self p ps)
      have hrest : ∀ q ∈ ps, 0 ≤ q.1 := fun q hq => hpos q (List.mem_cons_of_mem p hq)
      rw [List.foldlM_cons, List.foldl_cons]
      by_cases hN : p.1 < N
      · rw [if_pos hN, if_pos h0, if_pos hN]
        show ps.foldlM _ (modifyAt (addAnnots p.2) us p.1.toNat) = _
        exact ih (modifyAt (addAnnots p.2) us p.1.toNat) hrest
      · rw [if_neg hN, if_neg hN]
        show ps.foldlM _ us = _
        exact ih us hrest

theorem annot_foldl_length (N : Int) :
    ∀ (groups : List (Int × List Annot)) (us : List Utt),
      (groups.foldl (fun us p =>
          if p.1 < N then modifyAt (addAnnots p.2) us p.1.toNat else us) us).length =
        us.length := by
  intro groups
  induction groups with
  | nil => intro us; rfl
  | cons p ps ih =>
      intro us
      rw [List.foldl_cons]
      by_cases hN : p.1 < N
      · rw [if_pos hN, ih, modifyAt_length]
      · rw [if_neg hN, ih]

theorem annot_foldl_getElem (N : Int) :
    ∀ (groups : List (Int × List Annot)) (us : List Utt) (j : ℕ),
      ((groups.map Prod.fst).Nodup) → (∀ p ∈ groups, 0 ≤ p.1) →
      (groups.foldl (fun us p =>
          if p.1 < N then modifyAt (addAnnots p.2) us p.1.toNat else us) us)[j]? =
        (match groups.find? fun p => p.1 = (j : Int) with
         | some p => if p.1 < N then (us[j]?).map (addAnnots p.2) else us[j]?
         | none => us[j]?) := by
  intro groups
  induction groups with
  | nil => intro us j _ _; rfl
  | cons q qs ih =>
      intro us j hnodup hpos
      have hq0 : 0 ≤ q.1 := hpos q (List.mem_cons_self q qs)
      have hrest : ∀ p ∈ qs, 0 ≤ p.1 := fun p hp => hpos p (List.mem_cons_of_mem q hp)
      have hnodup' : (qs.map Prod.fst).Nodup := (List.nodup_cons.mp (by
        simpa using hnodup)).2
      rw [List.foldl_cons, List.find?_cons]
      by_cases hqj : q.1 = (j : Int)
      · rw [decide_eq_true hqj]
        have hqnot : q.1 ∉ qs.map Prod.fst := (List.nodup_cons.mp (by
          simpa using hnodup)).1
        have hfind : qs.find? (fun p => p.1 = (j : Int)) = none := by
          rw [List.find?_eq_none]
          intro p hp hpj
          exact hqnot (by
            rw [hqj, ← of_decide_eq_true hpj]
            exact List.mem_map_of_mem Prod.fst hp)
        by_cases hN : q.1 < N
        · rw [if_pos hN, ih _ j hnodup' hrest, hfind]
          dsimp only
          rw [if_pos hN, modifyAt_getElem?,
            if_pos (by rw [hqj]; exact Int.toNat_natCast j)]
        · rw [if_neg hN, ih _ j hnodup' hrest, hfind]
          dsimp only
          rw [if_neg hN]
      · rw [decide_eq_false hqj]
        by_cases hN : q.1 < N
        · have hne : q.1.toNat ≠ j := by
            intro hc
            exact hqj (by rw [← hc, Int.toNat_of_nonneg hq0])
          have hmod : (modifyAt (addAnnots q.2) us q.1.toNat)[j]? = us[j]? := by
            rw [modifyAt_getElem?, if_neg hne]
          rw [if_pos hN, ih _ j hnodup' hrest, hmod]
        · rw [if_neg hN, ih _ j hnodup' hrest]

theorem apply_annotations_spec (t : Transcript) (anns : List Annot)
    (hnn : ∀ a ∈ anns, 0 ≤ a.utterance_index) :
    ∃ t', apply_annotations_to_transcript t anns = Except.ok t' ∧
      t'.speaker_identification = t.speaker_identification ∧
      t'.labeling_metadata = t.labeling_metadata ∧
      t'.utterances.length = t.utterances.length ∧
      (∀ j : ℕ, j < t.utterances.length →
        ∃ orig u, t.utterances[j]? = some orig ∧ t'.utterances[j]? = some u ∧
          uttCore u = uttCore orig ∧
          u.annotations.getD [] =
            orig.annotations.getD [] ++
              (anns.filter fun a => a.utterance_index = (j : Int))) := by
  have hkeys0 : ∀ p ∈ annotationMap anns, 0 ≤ p.1 := by
    intro p hp
    exact annotationMap_keys_nonneg_gen anns [] (by intro q hq; simp at hq) hnn p hp
  have hnodup : ((annotationMap anns).map Prod.fst).Nodup :=
    annotationMap_keys_nodup_gen anns [] (by simp)
  have hfold := annot_foldlM_ok (t.utterances.length : Int) (annotationMap anns)
    t.utterances hkeys0
  have happ : apply_annotations_to_transcript t anns =
      Except.ok (Transcript.mk
        (List.foldl (fun us p => if p.1 < (t.utterances.length : Int) then
            modifyAt (addAnnots p.2) us p.1.toNat else us)
          t.utterances (annotationMap anns))
        t.speaker_identification t.labeling_metadata) := by
    simp only [apply_annotations_to_transcript]
    rw [hfold]
    rfl
  refine ⟨_, happ, rfl, rfl, ?_, ?_⟩
  · exact annot_foldl_length _ _ _
  · intro j hj
    have hget := annot_foldl_getElem (t.utterances.length : Int) (annotationMap anns)
      t.utterances j hnodup hkeys0
    have hlook := annotationMap_lookup anns (j : Int)
    cases hfind : (annotationMap anns).find? fun p => p.1 = (j : Int) with
    | some p =>
        rw [hfind] at hget hlook
        have hp' := List.find?_some hfind
        have hpj : p.1 = (j : Int) := of_decide_eq_true hp'
        have hpN : p.1 < (t.utterances.length : Int) := by
          rw [hpj]
          exact_mod_cast hj
        have hval : (List.foldl (fun us p =>
            if p.1 < (t.utterances.length : Int) then
              modifyAt (addAnnots p.2) us p.1.toNat else us)
            t.utterances (annotationMap anns))[j]? =
            some (addAnnots p.2 t.utterances[j]) := by
          rw [hget]
          show (if p.1 < (t.utterances.length : Int) then
            (t.utterances[j]?).map (addAnnots p.2) else t.utterances[j]?) = _
          rw [if_pos hpN, List.getElem?_eq_getElem hj]
          rfl
        have hp2 : p.2 = anns.filter fun a => a.utterance_index = (j : Int) := hlook
        refine ⟨t.utterances[j], addAnnots p.2 t.utterances[j],
          List.getElem?_eq_getElem hj, hval, rfl, ?_⟩
        show (some (t.utterances[j].annotations.getD [] ++ p.2)).getD [] = _
        rw [Option.getD_some, hp2]
    | none =>
        rw [hfind] at hget hlook
        have hval : (List.foldl (fun us p =>
            if p.1 < (t.utterances.length : Int) then
              modifyAt (addAnnots p.2) us p.1.toNat else us)
            t.utterances (annotationMap anns))[j]? =
            some t.utterances[j] := by
          rw [hget]
          exact List.getElem?_eq_getElem hj
        have hfilter : ([] : List Annot) =
            anns.filter fun a => a.utterance_index = (j : Int) := hlook
        refine ⟨t.utterances[j], t.utterances[j],
          List.getElem?_eq_getElem hj, hval, rfl, ?_⟩
        rw [← hfilter]
        simp

/-- C9 (amended): for annotation lists whose `utterance_index` values are
non-negative, `apply_annotations_to_transcript` completes without raising,
groups annotations by index and appends each group to its target utterance's
annotations in application order, never removing or overwriting existing
annotations (a second batch appends after the first), leaves every other
field untouched, and silently drops exactly the annotations whose index is at
least the utterance count.  Over arbitrary integer indices the original claim
fails — see the counterexample: a negative index is applied (or raises)
rather than dropped. -/
theorem claim_C9_annotation_merge_cumulative (t : Transcript)
    (anns : List Annot) (hnn : ∀ a ∈ anns, 0 ≤ a.utterance_index) :
    (∃ t', apply_annotations_to_transcript t anns = Except.ok t' ∧
      t'.speaker_identification = t.speaker_identification ∧
      t'.labeling_metadata = t.labeling_metadata ∧
      t'.utterances.length = t.utterances.length ∧
      (∀ j : ℕ, j < t.utterances.length →
        ∃ orig u, t.utterances[j]? = some orig ∧ t'.utterances[j]? = some u ∧
          uttCore u = uttCore orig ∧
          u.annotations.getD [] =
            orig.annotations.getD [] ++
              (anns.filter fun a => a.utterance_index = (j : Int)))) ∧
    (∀ anns₂ : List Annot, (∀ a ∈ anns₂, 0 ≤ a.utterance_index) →
      ∃ t' t'', apply_annotations_to_transcript t anns = Except.ok t' ∧
        apply_annotations_to_transcript t' anns₂ = Except.ok t'' ∧
        ∀ j : ℕ, j < t.utterances.length →
          ∃ orig u, t.utterances[j]? = some orig ∧ t''.utterances[j]? = some u ∧
            uttCore u = uttCore orig ∧
            u.annotations.getD [] =
              orig.annotations.getD [] ++
                (anns.filter fun a => a.utterance_index = (j : Int)) ++
                (anns₂.filter fun a => a.utterance_index = (j : Int))) := by
  constructor
  · exact apply_annotations_spec t anns hnn
  · intro anns₂ hnn₂
    obtain ⟨t', h1, _, _, hlen, hjs⟩ := apply_annotations_spec t anns hnn
    obtain ⟨t'', h2, _, _, _, hjs2⟩ := apply_annotations_spec t' anns₂ hnn₂
    refine ⟨t', t'', h1, h2, ?_⟩
    intro j hj
    have hj' : j < t'.utterances.length := by rw [hlen]; exact hj
    obtain ⟨orig, u', ho, hu', hcore', hann'⟩ := hjs j hj
    obtain ⟨orig2, u, ho2, hu, hcore, hann⟩ := hjs2 j hj'
    have heq : orig2 = u' := by
      rw [ho2] at hu'
      exact (Option.some.injEq _ _).mp hu'
    subst heq
    refine ⟨orig, u, ho, hu, ?_, ?_⟩
    · rw [hcore, hcore']
    · rw [hann, hann']

/-- C9 counterexample: the claim as stated (every annotation whose
`utterance_index` is outside the valid index range of the utterance list is
silently dropped without raising) is false: on a one-utterance transcript the
out-of-range index `-1` is not dropped — Python list indexing attaches it to
the last utterance — and the out-of-range index `-2` raises an `IndexError`
instead of being dropped. -/
theorem claim_C9_annotation_merge_counterexample :
    apply_annotations_to_transcript
        (Transcript.mk [Utt.mk "A" "x" 0 0 0 none none none none none] none none)
        [Annot.mk (-1) "warning" "T" "D" "low" none] =
      Except.ok (Transcript.mk
        [Utt.mk "A" "x" 0 0 0 none none none none
          (some [Annot.mk (-1) "warning" "T" "D" "low" none])] none none) ∧
    apply_annotations_to_transcript
        (Transcript.mk [Utt.mk "A" "x" 0 0 0 none none none none none] none none)
        [Annot.mk (-2) "warning" "T" "D" "low" none] =
      Except.error "IndexError: list index out of range" := by
  constructor
  · rfl
  · rfl

theorem claim_C9_annotation_merge_cumulative_witness :
    (∃ t', apply_annotations_to_transcript
        (Transcript.mk [Utt.mk "A" "x" 0 0 0 none none none none none] none none)
        [Annot.mk 0 "info" "T" "D" "low" none, Annot.mk 2 "info" "T2" "D2" "low" none] = Except.ok t' ∧
      t'.speaker_identification =
        (Transcript.mk [Utt.mk "A" "x" 0 0 0 none none none none none] none none).speaker_identification ∧
      t'.labeling_metadata =
        (Transcript.mk [Utt.mk "A" "x" 0 0 0 none none none none none] none none).labeling_metadata ∧
      t'.utterances.length =
        (Transcript.mk [Utt.mk "A" "x" 0 0 0 none none none none none] none none).utterances.length ∧
      (∀ j : ℕ, j < (Transcript.mk [Utt.mk "A" "x" 0 0 0 none none none none none] none none).utterances.length →
        ∃ orig u,
          (Transcript.mk [Utt.mk "A" "x" 0 0 0 none none none none none] none none).utterances[j]? = some orig ∧
          t'.utterances[j]? = some u ∧
          uttCore u = uttCore orig ∧
          u.annotations.getD [] =
            orig.annotations.getD [] ++
              ([Annot.mk 0 "info" "T" "D" "low" none, Annot.mk 2 "info" "T2" "D2" "low" none].filter
                fun a => a.utterance_index = (j : Int)))) ∧
    (∀ anns₂ : List Annot, (∀ a ∈ anns₂, 0 ≤ a.utterance_index) →
      ∃ t' t'', apply_annotations_to_transcript
          (Transcript.mk [Utt.mk "A" "x" 0 0 0 none none none none none] none none)
          [Annot.mk 0 "info" "T" "D" "low" none, Annot.mk 2 "info" "T2" "D2" "low" none] = Except.ok t' ∧
        apply_annotations_to_transcript t' anns₂ = Except.ok t'' ∧
        ∀ j : ℕ, j < (Transcript.mk [Utt.mk "A" "x" 0 0 0 none none none none none] none none).utterances.length →
          ∃ orig u,
            (Transcript.mk [Utt.mk "A" "x" 0 0 0 none none none none none] none none).utterances[j]? = some orig ∧
            t''.utterances[j]? = some u ∧
            uttCore u = uttCore orig ∧
            u.annotations.getD [] =
              orig.annotations.getD [] ++
                ([Annot.mk 0 "info" "T" "D" "low" none, Annot.mk 2 "info" "T2" "D2" "low" none].filter
                  fun a => a.utterance_index = (j : Int)) ++
                (anns₂.filter fun a => a.utterance_index = (j : Int))) :=
  claim_C9_annotation_merge_cumulative
    (Transcript.mk [Utt.mk "A" "x" 0 0 0 none none none none none] none none)
    [Annot.mk 0 "info" "T" "D" "low" none, Annot.mk 2 "info" "T2" "D2" "low" none] (by decide)
